import Mathlib

/-!
Verification of the 10x-MeL repository.

Part I embeds the browser-side data-model code of
`services/web/analyzer/static/scripts/query.js` (ParameterDef,
ValueProcessor, TransformDef, Transform, Label, DataView).  JavaScript
values are modelled by the inductive type `JValue`; JavaScript numbers are
modelled by exact rationals plus an explicit NaN constructor (the claims
under verification do not depend on binary floating-point rounding).
Thrown exceptions are modelled by `Except String`.

Part II models the text-analysis core described by the specification
(Term Scorer, Category Builder, Entry Classifier, Sentiment/Relevance
Analyzer, Pipeline Orchestrator); that code is not part of the source
tree given here, so each of those definitions is modelled from the spec.
-/

/-- A JavaScript value: string, number (exact rational), NaN, boolean,
null, undefined, array, or plain object (insertion-ordered string map,
modelled as an association list where the first binding wins). -/
inductive JValue where
  | vStr : String → JValue
  | vNum : ℚ → JValue
  | vNaN : JValue
  | vBool : Bool → JValue
  | vNull : JValue
  | vUndefined : JValue
  | vArr : List JValue → JValue
  | vObj : List (String × JValue) → JValue
deriving Inhabited

mutual

/-- JavaScript string coercion `String(v)`.  Number printing is
abstracted to the rational's decimal-free rendering; none of the verified
properties depend on the exact digits produced. -/
def jsToString : JValue → String
  | .vStr s => s
  | .vNum q => toString q
  | .vNaN => "NaN"
  | .vBool b => if b then "true" else "false"
  | .vNull => "null"
  | .vUndefined => "undefined"
  | .vArr xs => String.intercalate "," (jsToStringList xs)
  | .vObj _ => "[object Object]"

/-- Array elements are joined by commas; `null` and `undefined` elements
render as the empty string (JavaScript `Array.prototype.toString`). -/
def jsToStringList : List JValue → List String
  | [] => []
  | .vNull :: xs => "" :: jsToStringList xs
  | .vUndefined :: xs => "" :: jsToStringList xs
  | x :: xs => jsToString x :: jsToStringList xs

end

/-- Whitespace trim on a character list (both ends). -/
def trimChars (cs : List Char) : List Char :=
  ((cs.dropWhile Char.isWhitespace).reverse.dropWhile Char.isWhitespace).reverse

/-- `String.prototype.trim`. -/
def jsTrim (s : String) : String := String.mk (trimChars s.data)

/-- Split a character list on a separator character; the empty list
yields one empty group, matching JavaScript `"".split(sep) === [""]`. -/
def splitChars (sep : Char) : List Char → List (List Char)
  | [] => [[]]
  | c :: cs =>
    if c = sep then [] :: splitChars sep cs
    else
      match splitChars sep cs with
      | [] => [[c]]
      | g :: gs => (c :: g) :: gs

/-- `s.split(sep)` for the single-character separators used by this code
base (the list separator is always a comma). -/
def jsSplit (s sep : String) : List String :=
  match sep.data with
  | [] => [s]
  | c :: _ => (splitChars c s.data).map String.mk

/-- Leading decimal digits of a character list, as a numeral. -/
def digitsVal : List Char → Option Nat → Option Nat
  | [], acc => acc
  | c :: cs, acc =>
    if c.isDigit then
      digitsVal cs (some ((acc.getD 0) * 10 + (c.toNat - '0'.toNat)))
    else acc

/-- JavaScript `parseInt(s)` (radix 10; the hexadecimal prefix special
case is not exercised by this code base): trim, optional sign, then the
longest prefix of decimal digits; no digits gives NaN. -/
def jsParseInt (s : String) : JValue :=
  let t := jsTrim s
  let core : List Char → Option Int := fun cs =>
    match cs with
    | '-' :: rest => (digitsVal rest none).map fun n => -(n : Int)
    | '+' :: rest => (digitsVal rest none).map fun n => (n : Int)
    | rest => (digitsVal rest none).map fun n => (n : Int)
  match core t.data with
  | some n => .vNum (n : ℚ)
  | none => .vNaN

/-- Fractional digits: value of `cs` read as a decimal fraction. -/
def fracVal : List Char → ℚ → ℚ → ℚ
  | [], acc, _ => acc
  | c :: cs, acc, scale =>
    if c.isDigit then
      fracVal cs (acc + scale / 10 * (c.toNat - '0'.toNat : ℕ)) (scale / 10)
    else acc

/-- Digit span: splits off the longest prefix of decimal digits. -/
def digitSpan (cs : List Char) : List Char × List Char :=
  (cs.takeWhile Char.isDigit, cs.dropWhile Char.isDigit)

/-- JavaScript `parseFloat(s)`, restricted to plain decimal literals
(sign, integer part, optional fraction); exponents and
Infinity are not exercised by this code base.  No digits gives NaN. -/
def jsParseFloat (s : String) : JValue :=
  let t := jsTrim s
  let core : List Char → Option ℚ := fun cs =>
    let (sign, cs₁) : ℚ × List Char :=
      match cs with
      | '-' :: rest => (-1, rest)
      | '+' :: rest => (1, rest)
      | rest => (1, rest)
    let (intPart, cs₂) := digitSpan cs₁
    let (fracPart, hasDot) : List Char × Bool :=
      match cs₂ with
      | '.' :: rest => ((digitSpan rest).1, true)
      | _ => ([], false)
    if intPart = [] ∧ (fracPart = [] ∨ hasDot = false) then none
    else
      let ip : ℚ := ((digitsVal intPart (some 0)).getD 0 : ℕ)
      some (sign * (ip + fracVal fracPart 0 1))
  match core t.data with
  | some q => .vNum q
  | none => .vNaN

/-- `parseInt` applied to an arbitrary value coerces it to a string
first. -/
def jsParseIntJ (v : JValue) : JValue := jsParseInt (jsToString v)

/-- `parseFloat` applied to an arbitrary value coerces it to a string
first. -/
def jsParseFloatJ (v : JValue) : JValue := jsParseFloat (jsToString v)

/-- Property read `obj[k]` on a plain object: first binding wins
(assignment is modelled by consing, so the most recent binding is
found first). -/
def jsGet (o : List (String × JValue)) (k : String) : JValue :=
  match o.find? (fun p => p.1 == k) with
  | some p => p.2
  | none => .vUndefined

/-- Property read `v[k]` on an arbitrary value: throws on `null` and
`undefined`, looks up own properties of objects, and yields `undefined`
on the remaining primitives and on arrays indexed by a non-element key
(the keys used by this code are never array indices). -/
def jsIndex (v : JValue) (k : String) : Except String JValue :=
  match v with
  | .vNull => .error "TypeError: cannot read properties of null"
  | .vUndefined => .error "TypeError: cannot read properties of undefined"
  | .vObj o => .ok (jsGet o k)
  | _ => .ok .vUndefined

/-- JavaScript truthiness: `false`, `0`, `NaN`, the empty string, `null`
and `undefined` are falsy; every array and object is truthy. -/
def jsTruthy : JValue → Bool
  | .vStr s => !(s = "")
  | .vNum q => !(q = 0)
  | .vNaN => false
  | .vBool b => b
  | .vNull => false
  | .vUndefined => false
  | .vArr _ => true
  | .vObj _ => true

/-- JavaScript `a || b`. -/
def jsOr (a b : JValue) : JValue := if jsTruthy a then a else b

namespace ParameterDef

def TYPE_TEXT : String := "text"
def TYPE_TEXT_LIST : String := "text_list"
def TYPE_INT : String := "int"
def TYPE_FLOAT : String := "float"
def TYPE_COLUMN_NAME : String := "column_name"
def TYPE_COLUMN_NAME_LIST : String := "column_name_list"
def TYPE_DATE_RANGE : String := "date_range"
def TYPE_DATE_RANGE_LIST : String := "date_range_list"

def LIST_SEPARATOR : String := ","

/-- `ParameterDef.COLLECTION_TYPES` from query.js. -/
def COLLECTION_TYPES : List String :=
  [TYPE_TEXT_LIST, TYPE_DATE_RANGE_LIST, TYPE_COLUMN_NAME_LIST]

end ParameterDef

/-- The eight parameter-type constants recognized by
`ValueProcessor.process` in query.js. -/
def recognizedParameterTypes : List String :=
  [ParameterDef.TYPE_TEXT, ParameterDef.TYPE_COLUMN_NAME,
   ParameterDef.TYPE_DATE_RANGE, ParameterDef.TYPE_INT,
   ParameterDef.TYPE_FLOAT, ParameterDef.TYPE_TEXT_LIST,
   ParameterDef.TYPE_COLUMN_NAME_LIST, ParameterDef.TYPE_DATE_RANGE_LIST]

namespace ValueProcessor

/-- `processText(value)`: `value.toString()` — a method call on the
value, which throws a TypeError when the value is `null` or `undefined`
(unlike the total `String(v)` coercion); every other value stringifies. -/
def processText (v : JValue) : Except String JValue :=
  match v with
  | .vNull => .error "TypeError: Cannot read properties of null"
  | .vUndefined => .error "TypeError: Cannot read properties of undefined"
  | v => .ok (.vStr (jsToString v))

/-- `processInt(value)`: `parseInt(value)`. -/
def processInt (v : JValue) : JValue := jsParseIntJ v

/-- `processFloat(value)`: `parseFloat(value)`. -/
def processFloat (v : JValue) : JValue := jsParseFloatJ v

/-- `processTextList(value)`: a string is split on the list separator and
each piece trimmed; any other value passes through unchanged. -/
def processTextList (v : JValue) : JValue :=
  match v with
  | .vStr s =>
    .vArr (((jsSplit s ParameterDef.LIST_SEPARATOR).map jsTrim).map JValue.vStr)
  | v => v

/-- `processColumnNameList(value)`: identical body to `processTextList`. -/
def processColumnNameList (v : JValue) : JValue :=
  match v with
  | .vStr s =>
    .vArr (((jsSplit s ParameterDef.LIST_SEPARATOR).map jsTrim).map JValue.vStr)
  | v => v

/-- `processDateRangeList(value)`: a string is split and trimmed; an
array is copied element by element (the per-element date parsing is
commented out in the source); anything else passes through. -/
def processDateRangeList (v : JValue) : JValue :=
  match v with
  | .vStr s =>
    .vArr (((jsSplit s ParameterDef.LIST_SEPARATOR).map jsTrim).map JValue.vStr)
  | .vArr xs => .vArr xs
  | v => v

/-- `ValueProcessor.process(rawValue)`: dispatch on the parameter type;
an unrecognized type throws `'Unrecognized Parameter type:' + type`. -/
def process (parameterType : String) (rawValue : JValue) : Except String JValue :=
  if parameterType = ParameterDef.TYPE_TEXT ∨
     parameterType = ParameterDef.TYPE_COLUMN_NAME ∨
     parameterType = ParameterDef.TYPE_DATE_RANGE then
    processText rawValue
  else if parameterType = ParameterDef.TYPE_INT then
    .ok (processInt rawValue)
  else if parameterType = ParameterDef.TYPE_FLOAT then
    .ok (processFloat rawValue)
  else if parameterType = ParameterDef.TYPE_TEXT_LIST then
    .ok (processTextList rawValue)
  else if parameterType = ParameterDef.TYPE_COLUMN_NAME_LIST then
    .ok (processColumnNameList rawValue)
  else if parameterType = ParameterDef.TYPE_DATE_RANGE_LIST then
    .ok (processDateRangeList rawValue)
  else
    .error ("Unrecognized Parameter type:" ++ parameterType)

end ValueProcessor

/-- `ParameterDef.processValue(rawValue, type)` delegates to a fresh
`ValueProcessor`. -/
def ParameterDef.processValue (rawValue : JValue) (type : String) :
    Except String JValue :=
  ValueProcessor.process type rawValue

/-- A parameter definition (type, name, label, example); `example` is a
Lean keyword, so the field is `exampleText`. -/
structure ParameterDefRec where
  type : String
  name : String
  label : String
  exampleText : String

/-- A transform definition: type tag, description fields, parameter
definitions, operations (left uninterpreted). -/
structure TransformDef where
  type : String
  description : List String
  parameters : List ParameterDefRec
  operations : JValue

/-- A transform instance: its definition (`this._def`), its parameter
object, and its operation. -/
structure Transform where
  _def : TransformDef
  parameters : List (String × JValue)
  operation : JValue

/-- `Transform.type` getter. -/
def Transform.type (t : Transform) : String := t._def.type

/-- `ParameterProcessor.process()`: look the parameter up by name in the
parameter object and run it through `ParameterDef.processValue` at its
declared type. -/
def ParameterProcessor.process (parameters : List (String × JValue))
    (parameterDef : ParameterDefRec) : Except String JValue :=
  ParameterDef.processValue (jsGet parameters parameterDef.name) parameterDef.type

/-- The loop body of `Transform.serialize`: one processed value pushed
per parameter definition, in order. -/
def serializeParams (parameters : List (String × JValue)) :
    List ParameterDefRec → Except String (List JValue)
  | [] => .ok []
  | pd :: pds =>
    match ParameterProcessor.process parameters pd with
    | .error e => .error e
    | .ok v =>
      match serializeParams parameters pds with
      | .error e => .error e
      | .ok rest => .ok (v :: rest)

/-- `Transform.serialize()`: `[this.type, this.operation, processed
parameter values in parameter-definition order]`. -/
def Transform.serialize (t : Transform) : Except String (List JValue) :=
  match serializeParams t.parameters t._def.parameters with
  | .error e => .error e
  | .ok rest => .ok (.vStr t.type :: t.operation :: rest)

/-- `values.shift()`: removes and returns the first element, yielding
`undefined` on an empty array. -/
def jsShift : List JValue → JValue × List JValue
  | [] => (.vUndefined, [])
  | x :: xs => (x, xs)

/-- The loop body of `Transform.deserialize`: shift one value per
parameter definition, process it, and assign it to the parameter object
(assignment conses, so the latest binding wins on lookup). -/
def deserializeParams : List ParameterDefRec → List JValue →
    List (String × JValue) →
    Except String (List (String × JValue))
  | [], _, acc => .ok acc
  | pd :: pds, values, acc =>
    let (v, values1) := jsShift values
    match ParameterDef.processValue v pd.type with
    | .error e => .error e
    | .ok pv => deserializeParams pds values1 ((pd.name, pv) :: acc)

/-- `Transform.deserialize(values)`: shift the type tag and the
operation, resolve the transform definition through the manager's
registry (`app.transformManager.transformDefByType`, a plain object
keyed by the type string), then rebuild the parameter object. -/
def Transform.deserialize (registry : String → Option TransformDef)
    (values : List JValue) : Except String Transform :=
  let (tv, values1) := jsShift values
  let (op, values2) := jsShift values1
  match registry (jsToString tv) with
  | none => .error "TypeError: unknown transform type"
  | some transformDef =>
    match deserializeParams transformDef.parameters values2 [] with
    | .error e => .error e
    | .ok parameters =>
      .ok { _def := transformDef, parameters := parameters, operation := op }

/-- A column label; the constructor re-parses the width and font size it
is handed, so `Label.deserialize` parses them twice. -/
structure Label where
  name : JValue
  width : JValue
  fontSize : JValue

/-- `Label.deserialize(dict)`: reads keys n, w, s and builds
`new Label(dict.n, parseInt(dict.w), parseFloat(dict.s))`; the
constructor then applies `parseInt` / `parseFloat` once more. -/
def Label.deserialize (dict : JValue) : Except String Label := do
  let n ← jsIndex dict "n"
  let w ← jsIndex dict "w"
  let s ← jsIndex dict "s"
  .ok { name := n,
        width := jsParseIntJ (jsParseIntJ w),
        fontSize := jsParseFloatJ (jsParseFloatJ s) }

/-- A data view.  Note: `DataView.deserialize` in query.js passes
`(dataViewId, parentDataViewId, userId, datasetId, …)` to a constructor
declared `(id, parentId, datasetId, userId, …)`, so the user id lands in
the `datasetId` slot and vice versa; the embedding reproduces that
positional call through `DataView.make`. -/
structure DataView where
  id : JValue
  parentId : JValue
  datasetId : JValue
  userId : JValue
  labels : List Label
  transforms : List Transform

/-- The DataView constructor, with the source's positional parameter
order `(id, parentId, datasetId, userId, labels, transforms)`. -/
def DataView.make (id parentId datasetId userId : JValue)
    (labels : List Label) (transforms : List Transform) : DataView :=
  { id := id, parentId := parentId, datasetId := datasetId,
    userId := userId, labels := labels, transforms := transforms }

/-- `array.map(f)` for a fallible element function: fails as soon as one
element fails, otherwise returns the image list in order. -/
def mapJs {α : Type} (f : JValue → Except String α) :
    List JValue → Except String (List α)
  | [] => .ok []
  | x :: xs => do
    let y ← f x
    let ys ← mapJs f xs
    .ok (y :: ys)

/-- Reading `.map` off a non-array throws; `dict[KEY] || []` has already
replaced falsy values by the empty array before this point. -/
def jsAsArray (v : JValue) : Except String (List JValue) :=
  match v with
  | .vArr xs => .ok xs
  | _ => .error "TypeError: value.map is not a function"

/-- `DataView.deserialize(dict)` from query.js: plain key reads for the
ids, `dict[KEY] || []` for the label and transform lists, then
element-wise `Label.deserialize` / `Transform.deserialize`, and finally
the positional constructor call (see `DataView.make`). -/
def DataView.deserialize (registry : String → Option TransformDef)
    (dict : JValue) : Except String DataView := do
  let dataViewId ← jsIndex dict "id"
  let parentDataViewId ← jsIndex dict "parent_id"
  let userId ← jsIndex dict "user_id"
  let datasetId ← jsIndex dict "dataset_id"
  let columnLabelsListDict ← jsAsArray (jsOr (← jsIndex dict "column_labels") (.vArr []))
  let columnLabels ← mapJs Label.deserialize columnLabelsListDict
  let transformsListDict ← jsAsArray (jsOr (← jsIndex dict "transforms") (.vArr []))
  let transforms ← mapJs
    (fun tv => do Transform.deserialize registry (← jsAsArray tv))
    transformsListDict
  .ok (DataView.make dataViewId parentDataViewId userId datasetId
        columnLabels transforms)

theorem processTextList_idem (v : JValue) :
    ValueProcessor.processTextList (ValueProcessor.processTextList v) =
      ValueProcessor.processTextList v := by
  cases v <;> rfl

theorem processColumnNameList_idem (v : JValue) :
    ValueProcessor.processColumnNameList
        (ValueProcessor.processColumnNameList v) =
      ValueProcessor.processColumnNameList v := by
  cases v <;> rfl

theorem processDateRangeList_idem (v : JValue) :
    ValueProcessor.processDateRangeList
        (ValueProcessor.processDateRangeList v) =
      ValueProcessor.processDateRangeList v := by
  cases v <;> rfl

theorem process_eq_textList (v : JValue) :
    ValueProcessor.process ParameterDef.TYPE_TEXT_LIST v =
      Except.ok (ValueProcessor.processTextList v) := rfl

theorem process_eq_columnNameList (v : JValue) :
    ValueProcessor.process ParameterDef.TYPE_COLUMN_NAME_LIST v =
      Except.ok (ValueProcessor.processColumnNameList v) := rfl

theorem process_eq_dateRangeList (v : JValue) :
    ValueProcessor.process ParameterDef.TYPE_DATE_RANGE_LIST v =
      Except.ok (ValueProcessor.processDateRangeList v) := rfl

theorem process_eq_text (v : JValue) :
    ValueProcessor.process ParameterDef.TYPE_TEXT v =
      ValueProcessor.processText v := rfl

theorem process_eq_columnName (v : JValue) :
    ValueProcessor.process ParameterDef.TYPE_COLUMN_NAME v =
      ValueProcessor.processText v := rfl

theorem process_eq_dateRange (v : JValue) :
    ValueProcessor.process ParameterDef.TYPE_DATE_RANGE v =
      ValueProcessor.processText v := rfl

theorem process_eq_int (v : JValue) :
    ValueProcessor.process ParameterDef.TYPE_INT v =
      Except.ok (ValueProcessor.processInt v) := rfl

theorem process_eq_float (v : JValue) :
    ValueProcessor.process ParameterDef.TYPE_FLOAT v =
      Except.ok (ValueProcessor.processFloat v) := rfl

theorem processText_err_iff (v : JValue) :
    (∃ e, ValueProcessor.processText v = Except.error e) ↔
      (v = JValue.vNull ∨ v = JValue.vUndefined) := by
  cases v <;> simp [ValueProcessor.processText]

theorem valueProcessor_process_ok_of_mem_str (ty s : String)
    (h : ty ∈ recognizedParameterTypes) :
    ∃ out, ValueProcessor.process ty (JValue.vStr s) = Except.ok out := by
  simp only [recognizedParameterTypes, List.mem_cons, List.not_mem_nil,
    or_false] at h
  rcases h with h | h | h | h | h | h | h | h <;> subst h <;> exact ⟨_, rfl⟩

theorem valueProcessor_process_err_of_not_mem (ty : String) (v : JValue)
    (h : ty ∉ recognizedParameterTypes) :
    ValueProcessor.process ty v =
      Except.error ("Unrecognized Parameter type:" ++ ty) := by
  simp only [recognizedParameterTypes, List.mem_cons, List.not_mem_nil,
    or_false, not_or] at h
  obtain ⟨h1, h2, h3, h4, h5, h6, h7, h8⟩ := h
  unfold ValueProcessor.process
  rw [if_neg (by tauto), if_neg h4, if_neg h5, if_neg h6, if_neg h7,
    if_neg h8]

/-- Counterexample to C9 as stated: `'text'` is a recognized type, yet
`process('text', null)` throws — `value.toString()` is a method call on
`null` — so "throws exactly when the type is unrecognized" fails over
all values. -/
theorem valueProcessor_process_counterexample :
    ¬ ((∃ e, ValueProcessor.process ParameterDef.TYPE_TEXT JValue.vNull =
          Except.error e) ↔
        ParameterDef.TYPE_TEXT ∉ recognizedParameterTypes) :=
  fun h =>
    h.mp ⟨"TypeError: Cannot read properties of null", rfl⟩ (List.Mem.head _)

/-- C9, amended: `ValueProcessor.process(rawValue)` (and hence
`ParameterDef.processValue`) throws exactly when the parameter type is
not one of the eight recognized type constants or the type is one of
the three text-like types (text, column_name, date_range) applied to
`null`/`undefined` (where `value.toString()` itself throws); for every
recognized type and every string rawValue it returns a value without
throwing; and for the three collection types it is idempotent:
processing its own output returns it unchanged, since arrays pass
through. -/
theorem valueProcessor_process_spec (ty : String) (v : JValue) :
    ((∃ e, ValueProcessor.process ty v = Except.error e) ↔
        (ty ∉ recognizedParameterTypes ∨
          ((ty = ParameterDef.TYPE_TEXT ∨ ty = ParameterDef.TYPE_COLUMN_NAME ∨
              ty = ParameterDef.TYPE_DATE_RANGE) ∧
            (v = JValue.vNull ∨ v = JValue.vUndefined)))) ∧
    (ty ∈ recognizedParameterTypes →
      ∀ s : String, ∃ out,
        ValueProcessor.process ty (JValue.vStr s) = Except.ok out) ∧
    (ty ∈ ParameterDef.COLLECTION_TYPES →
      ∀ out, ValueProcessor.process ty v = Except.ok out →
        ValueProcessor.process ty out = Except.ok out) := by
  refine ⟨⟨?_, ?_⟩, ?_, ?_⟩
  · rintro ⟨e, he⟩
    by_cases hmem : ty ∈ recognizedParameterTypes
    · right
      simp only [recognizedParameterTypes, List.mem_cons, List.not_mem_nil,
        or_false] at hmem
      rcases hmem with h | h | h | h | h | h | h | h
      · subst h
        rw [process_eq_text] at he
        exact ⟨Or.inl rfl, (processText_err_iff v).mp ⟨e, he⟩⟩
      · subst h
        rw [process_eq_columnName] at he
        exact ⟨Or.inr (Or.inl rfl), (processText_err_iff v).mp ⟨e, he⟩⟩
      · subst h
        rw [process_eq_dateRange] at he
        exact ⟨Or.inr (Or.inr rfl), (processText_err_iff v).mp ⟨e, he⟩⟩
      · subst h; rw [process_eq_int] at he; exact Except.noConfusion he
      · subst h; rw [process_eq_float] at he; exact Except.noConfusion he
      · subst h; rw [process_eq_textList] at he; exact Except.noConfusion he
      · subst h
        rw [process_eq_columnNameList] at he
        exact Except.noConfusion he
      · subst h
        rw [process_eq_dateRangeList] at he
        exact Except.noConfusion he
    · exact Or.inl hmem
  · rintro (hmem | ⟨hty, hv⟩)
    · exact ⟨_, valueProcessor_process_err_of_not_mem ty v hmem⟩
    · rcases hty with h | h | h <;> subst h <;>
        rcases hv with h | h <;> subst h <;> exact ⟨_, rfl⟩
  · intro hmem s
    exact valueProcessor_process_ok_of_mem_str ty s hmem
  · intro hcoll out hout
    simp only [ParameterDef.COLLECTION_TYPES, List.mem_cons,
      List.not_mem_nil, or_false] at hcoll
    rcases hcoll with h | h | h <;> subst h
    · rw [process_eq_textList] at hout
      injection hout with hv
      rw [process_eq_textList, ← hv, processTextList_idem]
    · rw [process_eq_dateRangeList] at hout
      injection hout with hv
      rw [process_eq_dateRangeList, ← hv, processDateRangeList_idem]
    · rw [process_eq_columnNameList] at hout
      injection hout with hv
      rw [process_eq_columnNameList, ← hv, processColumnNameList_idem]

/-- Concrete run of C9: the text-list type is a collection type, and
processing the already-processed value `["a", "b"]` leaves it
unchanged. -/
theorem valueProcessor_process_spec_witness :
    ValueProcessor.process ParameterDef.TYPE_TEXT_LIST
        (JValue.vArr [JValue.vStr "a", JValue.vStr "b"]) =
      Except.ok (JValue.vArr [JValue.vStr "a", JValue.vStr "b"]) :=
  (valueProcessor_process_spec ParameterDef.TYPE_TEXT_LIST
      (JValue.vStr "a, b")).2.2
    (by simp [ParameterDef.COLLECTION_TYPES])
    (JValue.vArr [JValue.vStr "a", JValue.vStr "b"])
    rfl

theorem serializeParams_of_fixed (params : List (String × JValue))
    (pds : List ParameterDefRec)
    (hfix : ∀ pd ∈ pds,
      ParameterDef.processValue (jsGet params pd.name) pd.type =
        Except.ok (jsGet params pd.name)) :
    serializeParams params pds =
      Except.ok (pds.map fun pd => jsGet params pd.name) := by
  induction pds with
  | nil => rfl
  | cons pd pds ih =>
    have h1 := hfix pd (List.mem_cons_self pd pds)
    have h2 := ih fun q hq => hfix q (List.mem_cons_of_mem pd hq)
    simp [serializeParams, ParameterProcessor.process, h1, h2]

theorem deserializeParams_of_fixed (params : List (String × JValue))
    (pds : List ParameterDefRec) (acc : List (String × JValue))
    (hfix : ∀ pd ∈ pds,
      ParameterDef.processValue (jsGet params pd.name) pd.type =
        Except.ok (jsGet params pd.name)) :
    deserializeParams pds (pds.map fun pd => jsGet params pd.name) acc =
      Except.ok
        ((pds.reverse.map fun pd => (pd.name, jsGet params pd.name)) ++ acc) := by
  induction pds generalizing acc with
  | nil => rfl
  | cons pd pds ih =>
    have h1 := hfix pd (List.mem_cons_self pd pds)
    have h2 := ih ((pd.name, jsGet params pd.name) :: acc)
      fun q hq => hfix q (List.mem_cons_of_mem pd hq)
    simp [deserializeParams, jsShift, h1, h2]

theorem jsGet_of_entries (params acc : List (String × JValue)) (k : String)
    (hall : ∀ p ∈ acc, p.2 = jsGet params p.1)
    (hmem : k ∈ acc.map Prod.fst) :
    jsGet acc k = jsGet params k := by
  induction acc with
  | nil => simp at hmem
  | cons p t ih =>
    by_cases hk : p.1 = k
    · have hbeq : (p.1 == k) = true := beq_iff_eq.mpr hk
      have hfind : jsGet (p :: t) k = p.2 := by
        simp [jsGet, List.find?, hbeq]
      rw [hfind, hall p (List.mem_cons_self p t), hk]
    · have hbeq : (p.1 == k) = false := beq_eq_false_iff_ne.mpr hk
      have hfind : jsGet (p :: t) k = jsGet t k := by
        simp [jsGet, List.find?, hbeq]
      rw [hfind]
      apply ih fun q hq => hall q (List.mem_cons_of_mem p hq)
      simp only [List.map_cons, List.mem_cons] at hmem
      exact hmem.resolve_left fun h => hk h.symm

/-- C8: for a Transform whose parameter values are already in processed
form for its TransformDef (each is a fixed point of
`ParameterDef.processValue` at its declared type), and whose type the
manager's registry resolves back to the same TransformDef,
`Transform.deserialize(Transform.serialize(t))` yields a Transform with
the same type, the same operation, and the same parameter values. -/
theorem transform_serialize_deserialize_roundtrip
    (t : Transform) (registry : String → Option TransformDef)
    (hfix : ∀ pd ∈ t._def.parameters,
      ParameterDef.processValue (jsGet t.parameters pd.name) pd.type =
        Except.ok (jsGet t.parameters pd.name))
    (hreg : registry t._def.type = some t._def) :
    ∃ vs t', Transform.serialize t = Except.ok vs ∧
      Transform.deserialize registry vs = Except.ok t' ∧
      t'.type = t.type ∧
      t'.operation = t.operation ∧
      ∀ pd ∈ t._def.parameters,
        jsGet t'.parameters pd.name = jsGet t.parameters pd.name := by
  have hs := serializeParams_of_fixed t.parameters t._def.parameters hfix
  have hd := deserializeParams_of_fixed t.parameters t._def.parameters [] hfix
  rw [List.append_nil] at hd
  refine ⟨JValue.vStr t.type :: t.operation ::
      (t._def.parameters.map fun pd => jsGet t.parameters pd.name),
    { _def := t._def,
      parameters :=
        t._def.parameters.reverse.map fun pd => (pd.name, jsGet t.parameters pd.name),
      operation := t.operation },
    ?_, ?_, rfl, rfl, ?_⟩
  · simp [Transform.serialize, hs]
  · simp [Transform.deserialize, jsShift, jsToString, Transform.type, hreg, hd]
  · intro pd hpd
    apply jsGet_of_entries
    · intro p hp
      simp only [List.mem_map, List.mem_reverse] at hp
      obtain ⟨q, _, rfl⟩ := hp
      rfl
    · simp only [List.map_map, List.mem_map, List.mem_reverse]
      exact ⟨pd, hpd, rfl⟩

/-- A parameter definition used for the concrete C8 run. -/
def sampleParameterDef : ParameterDefRec :=
  { type := ParameterDef.TYPE_TEXT, name := "column",
    label := "Column", exampleText := "name" }

/-- A transform definition used for the concrete C8 run. -/
def sampleTransformDef : TransformDef :=
  { type := "filter", description := [],
    parameters := [sampleParameterDef], operations := JValue.vNull }

/-- A transform instance used for the concrete C8 run. -/
def sampleTransform : Transform :=
  { _def := sampleTransformDef,
    parameters := [("column", JValue.vStr "age")],
    operation := JValue.vStr "contains" }

/-- A registry resolving the sample type tag, used for the concrete C8
run. -/
def sampleRegistry : String → Option TransformDef :=
  fun s => if s = "filter" then some sampleTransformDef else none

/-- Concrete run of C8 on `sampleTransform`. -/
theorem transform_roundtrip_witness :
    ∃ vs t', Transform.serialize sampleTransform = Except.ok vs ∧
      Transform.deserialize sampleRegistry vs = Except.ok t' ∧
      t'.type = sampleTransform.type ∧
      t'.operation = sampleTransform.operation ∧
      ∀ pd ∈ sampleTransform._def.parameters,
        jsGet t'.parameters pd.name = jsGet sampleTransform.parameters pd.name :=
  transform_serialize_deserialize_roundtrip sampleTransform sampleRegistry
    (by
      intro pd hpd
      simp only [sampleTransform, sampleTransformDef, List.mem_singleton] at hpd
      subst hpd
      rfl)
    rfl

theorem ok_bind {ε α β : Type} (a : α) (f : α → Except ε β) :
    (Except.ok (ε := ε) a >>= f) = f a := rfl

theorem error_bind {ε α β : Type} (e : ε) (f : α → Except ε β) :
    (Except.error (α := α) e >>= f) = Except.error e := rfl

theorem mapJs_ok_forall₂ {α : Type} (f : JValue → Except String α)
    (xs : List JValue) (ys : List α) (h : mapJs f xs = Except.ok ys) :
    List.Forall₂ (fun x y => f x = Except.ok y) xs ys := by
  induction xs generalizing ys with
  | nil =>
    simp only [mapJs] at h
    injection h with h
    subst h
    exact List.Forall₂.nil
  | cons x xs ih =>
    simp only [mapJs] at h
    cases hx : f x with
    | error e => rw [hx, error_bind] at h; exact Except.noConfusion h
    | ok y =>
      rw [hx, ok_bind] at h
      cases hxs : mapJs f xs with
      | error e => rw [hxs, error_bind] at h; exact Except.noConfusion h
      | ok ys' =>
        rw [hxs, ok_bind] at h
        injection h with h
        subst h
        exact List.Forall₂.cons hx (ih ys' hxs)

/-- The value is `null` or `undefined` (i.e. the key is absent, or
present with a null value). -/
def isNullOrUndefined (v : JValue) : Prop :=
  v = JValue.vNull ∨ v = JValue.vUndefined

theorem jsOr_null (b : JValue) : jsOr JValue.vNull b = b := rfl

theorem jsOr_undefined (b : JValue) : jsOr JValue.vUndefined b = b := rfl

theorem jsOr_arr (xs : List JValue) (b : JValue) :
    jsOr (JValue.vArr xs) b = JValue.vArr xs := rfl

theorem jsAsArray_arr (xs : List JValue) :
    jsAsArray (JValue.vArr xs) = Except.ok xs := rfl

theorem mapJs_nil {α : Type} (f : JValue → Except String α) :
    mapJs f [] = Except.ok [] := rfl

/-- C10: `DataView.deserialize` yields empty labels and transforms when
the `column_labels` / `transforms` keys are absent or null (absence never
makes it fail), and when `column_labels` is present its output labels
list preserves the order and count of the input label dictionaries. -/
theorem dataView_deserialize_spec (registry : String → Option TransformDef)
    (o : List (String × JValue)) :
    (isNullOrUndefined (jsGet o "column_labels") →
      isNullOrUndefined (jsGet o "transforms") →
      DataView.deserialize registry (JValue.vObj o) =
        Except.ok (DataView.make (jsGet o "id") (jsGet o "parent_id")
          (jsGet o "user_id") (jsGet o "dataset_id") [] [])) ∧
    (∀ dv, isNullOrUndefined (jsGet o "column_labels") →
      DataView.deserialize registry (JValue.vObj o) = Except.ok dv →
      dv.labels = []) ∧
    (∀ dv, isNullOrUndefined (jsGet o "transforms") →
      DataView.deserialize registry (JValue.vObj o) = Except.ok dv →
      dv.transforms = []) ∧
    (∀ ls dv, jsGet o "column_labels" = JValue.vArr ls →
      DataView.deserialize registry (JValue.vObj o) = Except.ok dv →
      dv.labels.length = ls.length ∧
      List.Forall₂ (fun d lb => Label.deserialize d = Except.ok lb)
        ls dv.labels) := by
  have hunfold : DataView.deserialize registry (JValue.vObj o) =
      (jsAsArray (jsOr (jsGet o "column_labels") (JValue.vArr [])) >>=
        fun clds => mapJs Label.deserialize clds >>= fun cls =>
          jsAsArray (jsOr (jsGet o "transforms") (JValue.vArr [])) >>=
            fun tlds =>
              mapJs (fun tv => jsAsArray tv >>=
                  fun xs => Transform.deserialize registry xs) tlds >>=
                fun ts =>
                  Except.ok (DataView.make (jsGet o "id") (jsGet o "parent_id")
                    (jsGet o "user_id") (jsGet o "dataset_id") cls ts)) := rfl
  refine ⟨?_, ?_, ?_, ?_⟩
  · intro hl ht
    rcases hl with hl | hl <;> rcases ht with ht | ht <;>
      rw [hunfold, hl, ht] <;> rfl
  · intro dv hl hok
    have hstep : (jsAsArray (jsOr (jsGet o "transforms") (JValue.vArr [])) >>=
        fun tlds =>
          mapJs (fun tv => jsAsArray tv >>=
              fun xs => Transform.deserialize registry xs) tlds >>=
            fun ts =>
              Except.ok (DataView.make (jsGet o "id") (jsGet o "parent_id")
                (jsGet o "user_id") (jsGet o "dataset_id") [] ts)) =
        Except.ok dv := by
      rcases hl with hl | hl <;>
        rw [hunfold, hl] at hok <;> exact hok
    clear hok
    cases h1 : jsAsArray (jsOr (jsGet o "transforms") (JValue.vArr [])) with
    | error e => rw [h1, error_bind] at hstep; exact Except.noConfusion hstep
    | ok tlds =>
      rw [h1, ok_bind] at hstep
      cases h2 : mapJs (fun tv => jsAsArray tv >>=
          fun xs => Transform.deserialize registry xs) tlds with
      | error e => rw [h2, error_bind] at hstep; exact Except.noConfusion hstep
      | ok ts =>
        rw [h2, ok_bind] at hstep
        injection hstep with hdv
        subst hdv
        rfl
  · intro dv ht hok
    rw [hunfold] at hok
    cases h1 : jsAsArray (jsOr (jsGet o "column_labels") (JValue.vArr [])) with
    | error e => rw [h1, error_bind] at hok; exact Except.noConfusion hok
    | ok clds =>
      rw [h1, ok_bind] at hok
      cases h2 : mapJs Label.deserialize clds with
      | error e => rw [h2, error_bind] at hok; exact Except.noConfusion hok
      | ok cls =>
        rw [h2, ok_bind] at hok
        have htr : jsOr (jsGet o "transforms") (JValue.vArr []) =
            JValue.vArr [] := by
          rcases ht with ht | ht <;> rw [ht] <;> rfl
        rw [htr, jsAsArray_arr, ok_bind, mapJs_nil, ok_bind] at hok
        injection hok with hdv
        subst hdv
        rfl
  · intro ls dv hl hok
    rw [hunfold, hl, jsOr_arr, jsAsArray_arr, ok_bind] at hok
    cases h2 : mapJs Label.deserialize ls with
    | error e => rw [h2, error_bind] at hok; exact Except.noConfusion hok
    | ok cls =>
      rw [h2, ok_bind] at hok
      cases h3 : jsAsArray (jsOr (jsGet o "transforms") (JValue.vArr [])) with
      | error e => rw [h3, error_bind] at hok; exact Except.noConfusion hok
      | ok tlds =>
        rw [h3, ok_bind] at hok
        cases h4 : mapJs (fun tv => jsAsArray tv >>=
            fun xs => Transform.deserialize registry xs) tlds with
        | error e => rw [h4, error_bind] at hok; exact Except.noConfusion hok
        | ok ts =>
          rw [h4, ok_bind] at hok
          injection hok with hdv
          subst hdv
          have hf := mapJs_ok_forall₂ Label.deserialize ls cls h2
          exact ⟨(List.Forall₂.length_eq hf).symm, hf⟩

/-- Concrete run of C10: a dictionary with one label and a null
transforms key deserializes to one label and no transforms. -/
theorem dataView_deserialize_spec_witness :
    DataView.deserialize (fun _ => none)
        (JValue.vObj [("id", JValue.vNum 1), ("transforms", JValue.vNull)]) =
      Except.ok (DataView.make (JValue.vNum 1) JValue.vUndefined
        JValue.vUndefined JValue.vUndefined [] []) :=
  (dataView_deserialize_spec (fun _ => none)
      [("id", JValue.vNum 1), ("transforms", JValue.vNull)]).1
    (Or.inr rfl) (Or.inl rfl)

/-- Modelled from the spec: the text-analysis core (Text Parser, Term
Scorer, Category Builder, Entry Classifier, Sentiment/Relevance
Analyzer, Pipeline Orchestrator of §2–§4) is not part of the source
tree provided, so it is modelled here from the specification text.  An
`Entry` is one row of source data (§3): unique key, raw text, optional
ordinal rating, optional timestamp. -/
structure Entry where
  key : Nat
  text : String
  rating : Option ℚ
  timestamp : Option Nat

/-- Modelled from the spec (§6): the recognized configuration options,
plus the injected recency clock `now` required by §9 ("the global
recency clock must be passed explicitly … injected clock") and the
maximum-divergence cutoff of the classifier fallback (§4.4).  Rationals
stand in for the floating-point thresholds. -/
structure CoreConfig where
  topKSeedTerms : Nat
  overlapMergeThreshold : ℚ
  entropyMergeThreshold : ℚ
  mergeCountCap : Nat
  recencyHalfLife : Nat
  maxDivergenceCutoff : ℚ
  ratingScaleMin : ℚ
  ratingScaleMax : ℚ
  problemThreshold : ℚ
  relevancePatterns : List String
  now : Nat

/-- Modelled from the spec (§4.1): normalization lowercases, strips
punctuation except hyphens, and keeps letters, digits and spaces (other
whitespace is stripped rather than collapsed; nothing below depends on
the difference). -/
def normalizeText (s : String) : String :=
  String.mk ((s.data.map Char.toLower).filter fun c =>
    c.isAlpha || c.isDigit || c = '-' || c = ' ')

/-- Modelled from the spec (§4.1): the phrase extractor.  Part-of-speech
chunking is abstracted away: every normalized token counts as a phrase
of length 1 (the spec's "single nouns also count as phrases").  Empty or
garbled text yields the empty sequence, never an error. -/
def extractPhrases (s : String) : List String :=
  ((splitChars ' ' (normalizeText s).data).map String.mk).filter fun w => !(w = "")

/-- Modelled from the spec (§3): a (phrase, entry key, timestamp)
triple handed from the Parser to the Term Scorer. -/
structure Occurrence where
  phrase : String
  entryKey : Nat
  timestamp : Option Nat

/-- Modelled from the spec (§3): the aggregated per-phrase record. -/
structure TermStat where
  phrase : String
  rawCount : Nat
  boostedScore : ℚ
  entryKeys : List Nat

/-- Modelled from the spec (§4.2): exponential decay with a
configurable half-life, discretized to whole half-lives so that the
weight stays rational: an occurrence `age` time units old weighs
`(1/2) ^ (age / halfLife)`; monotonically non-increasing in age. -/
def decayWeight (halfLife age : Nat) : ℚ :=
  (1 / 2 : ℚ) ^ (age / halfLife)

/-- Modelled from the spec (§4.2): entries lacking a timestamp get the
neutral baseline weight 1 ("treated as currently recent"), the
documented default. -/
def weightOf (now halfLife : Nat) : Option Nat → ℚ
  | none => 1
  | some t => decayWeight halfLife (now - t)

/-- Modelled from the spec (§4.2): boosted score = sum over occurrences
of the decay weight of each occurrence. -/
def termBoost (now halfLife : Nat) (tss : List (Option Nat)) : ℚ :=
  (tss.map (weightOf now halfLife)).sum

/-- Modelled from the spec (§4.2): the output ranking relation —
descending by boosted score; ties broken by raw count (descending),
then lexicographically by normalized phrase. -/
def termLE (a b : TermStat) : Prop :=
  b.boostedScore < a.boostedScore ∨
    (a.boostedScore = b.boostedScore ∧
      (b.rawCount < a.rawCount ∨
        (a.rawCount = b.rawCount ∧ a.phrase ≤ b.phrase)))

instance termLE.decRel : DecidableRel termLE := fun a b => by
  unfold termLE
  infer_instance

theorem termLE_total (a b : TermStat) : termLE a b ∨ termLE b a := by
  rcases lt_trichotomy a.boostedScore b.boostedScore with h | h | h
  · exact Or.inr (Or.inl h)
  · rcases lt_trichotomy a.rawCount b.rawCount with h2 | h2 | h2
    · exact Or.inr (Or.inr ⟨h.symm, Or.inl h2⟩)
    · rcases le_total a.phrase b.phrase with h3 | h3
      · exact Or.inl (Or.inr ⟨h, Or.inr ⟨h2, h3⟩⟩)
      · exact Or.inr (Or.inr ⟨h.symm, Or.inr ⟨h2.symm, h3⟩⟩)
    · exact Or.inl (Or.inr ⟨h, Or.inl h2⟩)
  · exact Or.inl (Or.inl h)

theorem termLE_trans (a b c : TermStat) (hab : termLE a b)
    (hbc : termLE b c) : termLE a c := by
  rcases hab with h1 | ⟨e1, h1⟩
  · rcases hbc with h2 | ⟨e2, h2⟩
    · exact Or.inl (h2.trans h1)
    · exact Or.inl (by rw [← e2]; exact h1)
  · rcases hbc with h2 | ⟨e2, h2⟩
    · exact Or.inl (by rw [e1]; exact h2)
    · refine Or.inr ⟨e1.trans e2, ?_⟩
      rcases h1 with h1 | ⟨f1, h1⟩
      · rcases h2 with h2 | ⟨f2, h2⟩
        · exact Or.inl (h2.trans h1)
        · exact Or.inl (by rw [← f2]; exact h1)
      · rcases h2 with h2 | ⟨f2, h2⟩
        · exact Or.inl (by rw [f1]; exact h2)
        · exact Or.inr ⟨f1.trans f2, h1.trans h2⟩

theorem termLE_antisymm_key (a b : TermStat) (hab : termLE a b)
    (hba : termLE b a) :
    a.boostedScore = b.boostedScore ∧ a.rawCount = b.rawCount ∧
      a.phrase = b.phrase := by
  rcases hab with h1 | ⟨e1, h1⟩
  · rcases hba with h2 | ⟨e2, h2⟩
    · exact absurd (h1.trans h2) (lt_irrefl _)
    · rw [e2] at h1; exact absurd h1 (lt_irrefl _)
  · rcases hba with h2 | ⟨e2, h2⟩
    · rw [e1] at h2; exact absurd h2 (lt_irrefl _)
    · refine ⟨e1, ?_⟩
      rcases h1 with h1 | ⟨f1, h1⟩
      · rcases h2 with h2 | ⟨f2, h2⟩
        · exact absurd (h1.trans h2) (lt_irrefl _)
        · rw [f2] at h1; exact absurd h1 (lt_irrefl _)
      · rcases h2 with h2 | ⟨f2, h2⟩
        · rw [f1] at h2; exact absurd h2 (lt_irrefl _)
        · exact ⟨f1, le_antisymm h1 h2⟩

instance termLE.isTotal : IsTotal TermStat termLE := ⟨termLE_total⟩

instance termLE.isTrans : IsTrans TermStat termLE := ⟨termLE_trans⟩

/-- Modelled from the spec (§4.2): the Term Scorer.  Raw count is the
number of occurrences; boosted score is the decay-weighted sum; the set
of contributing entry keys is deduplicated; the output is sorted by the
ranking relation `termLE`. -/
def scoreTerms (now halfLife : Nat) (occs : List Occurrence) : List TermStat :=
  let phrases := (occs.map Occurrence.phrase).dedup
  let stats := phrases.map fun p =>
    let mine := occs.filter fun oc => oc.phrase == p
    { phrase := p
      rawCount := mine.length
      boostedScore := termBoost now halfLife (mine.map Occurrence.timestamp)
      entryKeys := (mine.map Occurrence.entryKey).dedup : TermStat }
  List.insertionSort termLE stats

/-- C2: the Term Scorer's output is sorted by `termLE` (descending
boosted score, ties by raw count then lexicographically by phrase), the
ranking is total, two terms comparable both ways share their whole
(boostedScore, rawCount, phrase) tuple — so distinct tuples are strictly
ordered — and sorting the output again leaves it unchanged. -/
theorem termScorer_ranking_total_order (now halfLife : Nat)
    (occs : List Occurrence) (a b : TermStat) :
    List.Sorted termLE (scoreTerms now halfLife occs) ∧
    (termLE a b ∨ termLE b a) ∧
    (termLE a b → termLE b a →
      a.boostedScore = b.boostedScore ∧ a.rawCount = b.rawCount ∧
        a.phrase = b.phrase) ∧
    List.insertionSort termLE (scoreTerms now halfLife occs) =
      scoreTerms now halfLife occs := by
  have hsorted : List.Sorted termLE (scoreTerms now halfLife occs) := by
    unfold scoreTerms
    exact List.sorted_insertionSort termLE _
  exact ⟨hsorted, termLE_total a b, termLE_antisymm_key a b,
    hsorted.insertionSort_eq⟩

/-- Concrete run of C2 at one occurrence list and one term pair. -/
theorem termScorer_ranking_witness :
    List.Sorted termLE (scoreTerms 0 1 [⟨"login error", 1, none⟩]) ∧
    (termLE ⟨"a", 1, 1, [1]⟩ ⟨"b", 2, 1, [2]⟩ ∨
      termLE ⟨"b", 2, 1, [2]⟩ ⟨"a", 1, 1, [1]⟩) ∧
    (termLE ⟨"a", 1, 1, [1]⟩ ⟨"b", 2, 1, [2]⟩ →
      termLE ⟨"b", 2, 1, [2]⟩ ⟨"a", 1, 1, [1]⟩ →
      (⟨"a", 1, 1, [1]⟩ : TermStat).boostedScore =
          (⟨"b", 2, 1, [2]⟩ : TermStat).boostedScore ∧
        (⟨"a", 1, 1, [1]⟩ : TermStat).rawCount =
          (⟨"b", 2, 1, [2]⟩ : TermStat).rawCount ∧
        (⟨"a", 1, 1, [1]⟩ : TermStat).phrase =
          (⟨"b", 2, 1, [2]⟩ : TermStat).phrase) ∧
    List.insertionSort termLE (scoreTerms 0 1 [⟨"login error", 1, none⟩]) =
      scoreTerms 0 1 [⟨"login error", 1, none⟩] :=
  termScorer_ranking_total_order 0 1 [⟨"login error", 1, none⟩]
    ⟨"a", 1, 1, [1]⟩ ⟨"b", 2, 1, [2]⟩

theorem decayWeight_antitone (halfLife a₁ a₂ : Nat) (h : a₁ ≤ a₂) :
    decayWeight halfLife a₂ ≤ decayWeight halfLife a₁ := by
  unfold decayWeight
  apply pow_le_pow_of_le_one (by norm_num) (by norm_num)
  exact Nat.div_le_div_right h

/-- Occurrence-wise recency comparison: both occurrences carry
timestamps and the first is at least as recent, or both lack one. -/
def atLeastAsRecent : Option Nat → Option Nat → Prop
  | some x, some y => y ≤ x
  | none, none => True
  | _, _ => False

theorem weightOf_mono (now halfLife : Nat) (x y : Option Nat)
    (h : atLeastAsRecent x y) :
    weightOf now halfLife y ≤ weightOf now halfLife x := by
  cases x with
  | none =>
    cases y with
    | none => exact le_refl _
    | some t => exact absurd h (by simp [atLeastAsRecent])
  | some tx =>
    cases y with
    | none => exact absurd h (by simp [atLeastAsRecent])
    | some ty =>
      have hty : ty ≤ tx := h
      exact decayWeight_antitone halfLife (now - tx) (now - ty)
        (Nat.sub_le_sub_left hty now)

/-- C7: for two terms whose occurrence lists agree except that every
occurrence of the first is at least as recent as the corresponding
occurrence of the second, the first term's boosted score is at least the
second's (the decay weight is monotonically non-increasing in age). -/
theorem termBoost_recency_mono (now halfLife : Nat)
    (ts₁ ts₂ : List (Option Nat))
    (h : List.Forall₂ atLeastAsRecent ts₁ ts₂) :
    termBoost now halfLife ts₂ ≤ termBoost now halfLife ts₁ := by
  induction h with
  | nil => exact le_refl _
  | cons hxy _ ih =>
    simp only [termBoost, List.map_cons, List.sum_cons]
    exact add_le_add (weightOf_mono now halfLife _ _ hxy) ih

/-- Concrete run of C7: one occurrence at time 10 scores at least as
high as the same occurrence aged back to time 5, with `now = 12`. -/
theorem termBoost_recency_mono_witness :
    termBoost 12 1 [some 5] ≤ termBoost 12 1 [some 10] :=
  termBoost_recency_mono 12 1 [some 10] [some 5]
    (List.Forall₂.cons (by decide : (5 : ℕ) ≤ 10) List.Forall₂.nil)

/-- Total count attributed to key `k` in a (term, count) list. -/
def keyTotal : List (String × Nat) → String → Nat
  | [], _ => 0
  | p :: t, k => (if p.1 = k then p.2 else 0) + keyTotal t k

theorem keyTotal_filter_ne (l : List (String × Nat)) (k k' : String)
    (h : k' ≠ k) :
    keyTotal (l.filter fun p => !(p.1 == k)) k' = keyTotal l k' := by
  induction l with
  | nil => rfl
  | cons p t ih =>
    by_cases hp : p.1 = k
    · have h2 : ¬(p.1 = k') := fun hq => h (hq.symm.trans hp)
      rw [List.filter_cons_of_neg (by simp [hp])]
      rw [ih]
      conv_rhs => rw [keyTotal]
      rw [if_neg h2]
      omega
    · rw [List.filter_cons_of_pos (by simp [hp])]
      conv_lhs => rw [keyTotal]
      conv_rhs => rw [keyTotal]
      rw [ih]

theorem keyTotal_split (l : List (String × Nat)) (k : String) :
    keyTotal l k + ((l.filter fun p => !(p.1 == k)).map Prod.snd).sum =
      (l.map Prod.snd).sum := by
  induction l with
  | nil => rfl
  | cons p t ih =>
    by_cases hp : p.1 = k
    · rw [List.filter_cons_of_neg (by simp [hp])]
      conv_lhs => rw [keyTotal]
      rw [if_pos hp]
      simp only [List.map_cons, List.sum_cons]
      omega
    · rw [List.filter_cons_of_pos (by simp [hp])]
      conv_lhs => rw [keyTotal]
      rw [if_neg hp]
      simp only [List.map_cons, List.sum_cons]
      omega

theorem sum_keyTotal (keys : List String) :
    ∀ l : List (String × Nat), keys.Nodup → (∀ p ∈ l, p.1 ∈ keys) →
      (keys.map (keyTotal l)).sum = (l.map Prod.snd).sum := by
  induction keys with
  | nil =>
    intro l _ hcov
    cases l with
    | nil => rfl
    | cons p t => exact absurd (hcov p (List.mem_cons_self p t)) (by simp)
  | cons k ks ih =>
    intro l hnd hcov
    have hknot : k ∉ ks := (List.nodup_cons.mp hnd).1
    have hcov' : ∀ p ∈ l.filter fun p => !(p.1 == k), p.1 ∈ ks := by
      intro p hp
      rw [List.mem_filter] at hp
      have h1 := hcov p hp.1
      have h2 : ¬(p.1 = k) := by
        intro hq
        rw [Bool.not_eq_true', beq_eq_false_iff_ne] at hp
        exact hp.2 hq
      exact (List.mem_cons.mp h1).resolve_left h2
    have hrest := ih (l.filter fun p => !(p.1 == k)) hnd.of_cons hcov'
    have hsame : ks.map (keyTotal (l.filter fun p => !(p.1 == k))) =
        ks.map (keyTotal l) := by
      apply List.map_congr_left
      intro k' hk'
      exact keyTotal_filter_ne l k k' fun h => hknot (h ▸ hk')
    rw [List.map_cons, List.sum_cons, ← keyTotal_split l k, ← hsame, hrest]

theorem sum_map_div (l : List String) (f : String → ℚ) (d : ℚ) :
    (l.map fun x => f x / d).sum = (l.map f).sum / d := by
  induction l with
  | nil => simp
  | cons x t ih =>
    simp only [List.map_cons, List.sum_cons, ih]
    rw [div_add_div_same]

theorem sum_map_add_const (l : List String) (f : String → ℚ) (c : ℚ) :
    (l.map fun x => f x + c).sum = (l.map f).sum + l.length * c := by
  induction l with
  | nil => simp
  | cons x t ih =>
    simp only [List.map_cons, List.sum_cons, ih, List.length_cons]
    push_cast
    ring

/-- Modelled from the spec (§4.3 pass 3 and §3): a LanguageModel is a
probability distribution over a term vocabulary built from occurrence
counts with additive (Laplace) smoothing: the vocabulary is the
deduplicated key set, and term `t` gets probability
`(count t + α) / (total + α·|vocab|)`. -/
def buildLanguageModel (termCounts : List (String × Nat)) (alpha : ℚ) :
    List (String × ℚ) :=
  let vocab := (termCounts.map Prod.fst).dedup
  let total : ℚ := ((termCounts.map Prod.snd).sum : ℕ)
  let denom : ℚ := total + alpha * vocab.length
  vocab.map fun t => (t, ((keyTotal termCounts t : ℕ) + alpha) / denom)

theorem buildLanguageModel_sum (termCounts : List (String × Nat))
    (alpha : ℚ) (halpha : 0 < alpha) (hne : termCounts ≠ []) :
    ((buildLanguageModel termCounts alpha).map Prod.snd).sum = 1 := by
  have hvocab : ((termCounts.map Prod.fst).dedup : List String) ≠ [] := by
    intro h
    rw [List.dedup_eq_nil, List.map_eq_nil_iff] at h
    exact hne h
  set vocab := (termCounts.map Prod.fst).dedup with hv
  set total : ℚ := (((termCounts.map Prod.snd).sum : ℕ) : ℚ) with ht
  set denom : ℚ := total + alpha * vocab.length with hd
  have hlen : 0 < (vocab.length : ℚ) := by
    have : 0 < vocab.length := List.length_pos.mpr hvocab
    exact_mod_cast this
  have htotal : 0 ≤ total := by
    rw [ht]
    exact_mod_cast Nat.zero_le _
  have hdenom : denom ≠ 0 := by
    have : 0 < denom := by
      rw [hd]
      have : 0 < alpha * vocab.length := by positivity
      linarith
    exact ne_of_gt this
  have hkeys : (vocab.map fun t => ((keyTotal termCounts t : ℕ) : ℚ)).sum =
      total := by
    have hnat := sum_keyTotal vocab termCounts (List.nodup_dedup _)
      fun p hp => List.mem_dedup.mpr (List.mem_map.mpr ⟨p, hp, rfl⟩)
    rw [ht, ← hnat, Nat.cast_list_sum, List.map_map]
    rfl
  have hview : ((buildLanguageModel termCounts alpha).map Prod.snd).sum =
      (vocab.map fun t =>
        (((keyTotal termCounts t : ℕ) : ℚ) + alpha) / denom).sum := by
    simp only [buildLanguageModel, List.map_map]
    rfl
  rw [hview, sum_map_div, sum_map_add_const, hkeys]
  rw [div_eq_one_iff_eq hdenom, hd]
  ring

/-- Modelled from the spec (§3): a Category node — label, member terms,
associated entry keys, and subcategories forming an owned tree. -/
inductive Category where
  | node (label : String) (terms : List String) (entryKeys : List Nat)
      (subcategories : List Category)

/-- The category's label. -/
def Category.label : Category → String
  | .node l _ _ _ => l

/-- The category's member terms. -/
def Category.terms : Category → List String
  | .node _ t _ _ => t

/-- The category's associated entry keys. -/
def Category.entryKeys : Category → List Nat
  | .node _ _ k _ => k

/-- The category's subcategories. -/
def Category.subcategories : Category → List Category
  | .node _ _ _ s => s

/-- Modelled from the spec (§4.3 pass 3): occurrence counts of a
category's member terms across its associated entries. -/
def categoryTermCounts (occs : List Occurrence) (c : Category) :
    List (String × Nat) :=
  c.terms.map fun t =>
    (t, (occs.filter fun oc =>
          oc.phrase == t && oc.entryKey ∈ c.entryKeys).length)

/-- Modelled from the spec (§4.3 pass 3): the per-category
LanguageModel, Laplace smoothing with α = 1. -/
def categoryModel (occs : List Occurrence) (c : Category) :
    List (String × ℚ) :=
  buildLanguageModel (categoryTermCounts occs c) 1

/-- Modelled from the spec (§4.4 phase 2): phrase counts of a single
entry's text, input of the fallback single-entry LanguageModel. -/
def entryTermCounts (e : Entry) : List (String × Nat) :=
  let phrases := extractPhrases e.text
  phrases.dedup.map fun p => (p, (phrases.filter fun q => q == p).length)

/-- Modelled from the spec (§4.4 phase 2): the fallback single-entry
LanguageModel, built with the same smoothing as §4.3. -/
def entryModel (e : Entry) : List (String × ℚ) :=
  buildLanguageModel (entryTermCounts e) 1

/-- C4, amended: for every Category with a non-empty term set and every
fallback single-entry model (for an entry whose text yields at least one
phrase), the LanguageModel's probabilities sum to exactly 1 — hence in
particular to within the 1e-9 tolerance — including the additive
smoothing mass for unseen terms. -/
theorem languageModel_probabilities_sum_to_one (occs : List Occurrence)
    (c : Category) (e : Entry) (hc : c.terms ≠ [])
    (he : extractPhrases e.text ≠ []) :
    ((categoryModel occs c).map Prod.snd).sum = 1 ∧
    ((entryModel e).map Prod.snd).sum = 1 ∧
    |((categoryModel occs c).map Prod.snd).sum - 1| ≤ 1 / 1000000000 ∧
    |((entryModel e).map Prod.snd).sum - 1| ≤ 1 / 1000000000 := by
  have h1 : ((categoryModel occs c).map Prod.snd).sum = 1 := by
    apply buildLanguageModel_sum _ _ (by norm_num)
    intro h
    rw [categoryTermCounts, List.map_eq_nil_iff] at h
    exact hc h
  have h2 : ((entryModel e).map Prod.snd).sum = 1 := by
    apply buildLanguageModel_sum _ _ (by norm_num)
    intro h
    rw [entryTermCounts] at h
    simp only [List.map_eq_nil_iff, List.dedup_eq_nil] at h
    exact he h
  refine ⟨h1, h2, ?_, ?_⟩
  · rw [h1]; norm_num
  · rw [h2]; norm_num

/-- Concrete run of C4: a one-term category over one occurrence and a
one-word entry. -/
theorem languageModel_sum_witness :
    ((categoryModel [⟨"login", 1, none⟩]
        (Category.node "login" ["login"] [1] [])).map Prod.snd).sum = 1 ∧
    ((entryModel ⟨1, "login", none, none⟩).map Prod.snd).sum = 1 ∧
    |((categoryModel [⟨"login", 1, none⟩]
        (Category.node "login" ["login"] [1] [])).map Prod.snd).sum - 1| ≤
      1 / 1000000000 ∧
    |((entryModel ⟨1, "login", none, none⟩).map Prod.snd).sum - 1| ≤
      1 / 1000000000 :=
  languageModel_probabilities_sum_to_one [⟨"login", 1, none⟩]
    (Category.node "login" ["login"] [1] []) ⟨1, "login", none, none⟩
    (by simp [Category.terms])
    (by decide)

/-- Counterexample to C4 as stated: for an entry whose text yields no
phrases the classifier's fallback model has an empty vocabulary, so its
probabilities sum to 0 — not 1, and not within the 1e-9 tolerance
(§7(d) handles this degenerate model through the maximum-divergence
rule instead). -/
theorem languageModel_sum_counterexample :
    entryModel ⟨1, "", none, none⟩ = [] ∧
    ((entryModel ⟨1, "", none, none⟩).map Prod.snd).sum = 0 ∧
    ¬ |((entryModel ⟨1, "", none, none⟩).map Prod.snd).sum - 1| ≤
        1 / 1000000000 := by
  have h : ((entryModel ⟨1, "", none, none⟩).map Prod.snd).sum = 0 := rfl
  refine ⟨rfl, h, ?_⟩
  rw [h]
  norm_num

/-- Modelled from the spec (§4.3 pass 1): the top-K terms by boosted
score seed singleton categories; if K exceeds the number of distinct
terms, all available terms seed (take never fails). -/
def seedCategories (stats : List TermStat) (k : Nat) : List Category :=
  (stats.take k).map fun s => Category.node s.phrase [s.phrase] s.entryKeys []

/-- Terms co-occurring in the given entries. -/
def cooccurringTerms (occs : List Occurrence) (keys : List Nat) : List String :=
  ((occs.filter fun oc => oc.entryKey ∈ keys).map Occurrence.phrase).dedup

/-- Modelled from the spec (§4.3 pass 2): the overlap feature set of a
category — member terms together with terms co-occurring in the same
entries. -/
def featureSet (occs : List Occurrence) (c : Category) : List String :=
  (c.terms ++ cooccurringTerms occs c.entryKeys).dedup

/-- Modelled from the spec (§4.3 pass 2 / §9): the concrete
containment/overlap formula is left open by the spec; Jaccard overlap is
the documented choice here. -/
def jaccard (a b : List String) : ℚ :=
  let u := (a ++ b).dedup
  if u.length = 0 then 0
  else (((a.filter fun x => b.contains x).dedup.length : ℕ) : ℚ) / u.length

/-- Overlap score of two categories (§4.3 pass 2). -/
def overlapScore (occs : List Occurrence) (c d : Category) : ℚ :=
  jaccard (featureSet occs c) (featureSet occs d)

/-- Modelled from the spec (§4.3): merging unions the term sets and the
entry keys; the lower-index category's label survives (the fixed,
documented tie-break), and subcategory lists concatenate. -/
def mergeCategories (a b : Category) : Category :=
  Category.node a.label ((a.terms ++ b.terms).dedup)
    ((a.entryKeys ++ b.entryKeys).dedup)
    (a.subcategories ++ b.subcategories)

/-- All index pairs (i, j) with i < j < n, in a fixed order. -/
def indexPairs (n : Nat) : List (Nat × Nat) :=
  (List.range n).flatMap fun i =>
    ((List.range n).filter fun j => i < j).map fun j => (i, j)

/-- First pair attaining the maximal score (deterministic: on ties the
earlier pair wins). -/
def bestPairByMax (score : Nat × Nat → ℚ) : List (Nat × Nat) → Option (Nat × Nat)
  | [] => none
  | p :: ps =>
    match bestPairByMax score ps with
    | none => some p
    | some q => if score p < score q then some q else some p

/-- First pair attaining the minimal score (deterministic: on ties the
earlier pair wins). -/
def bestPairByMin (score : Nat × Nat → ℚ) : List (Nat × Nat) → Option (Nat × Nat)
  | [] => none
  | p :: ps =>
    match bestPairByMin score ps with
    | none => some p
    | some q => if score q < score p then some q else some p

/-- Category at an index (total, with a dummy out-of-range default that
`indexPairs` never reaches). -/
def catAt (cats : List Category) (i : Nat) : Category :=
  cats.getD i (Category.node "" [] [] [])

/-- Replace the lower-index category by the merged one and remove the
higher-index one. -/
def applyMerge (cats : List Category) (i j : Nat) : List Category :=
  (cats.set i (mergeCategories (catAt cats i) (catAt cats j))).eraseIdx j

/-- Modelled from the spec (§4.3 pass 2): one term-overlap merge
iteration — merge the highest-scoring pair if it exceeds the threshold,
otherwise stop. -/
def overlapMergeStep (occs : List Occurrence) (threshold : ℚ)
    (cats : List Category) : Option (List Category) :=
  match bestPairByMax
      (fun pr => overlapScore occs (catAt cats pr.1) (catAt cats pr.2))
      (indexPairs cats.length) with
  | none => none
  | some (i, j) =>
    if threshold < overlapScore occs (catAt cats i) (catAt cats j) then
      some (applyMerge cats i j)
    else none

/-- Probability a model assigns to a term (0 when absent). -/
def probOf (m : List (String × ℚ)) (t : String) : ℚ :=
  match m.find? fun p => p.1 == t with
  | some p => p.2
  | none => 0

/-- Modelled from the spec (§4.3 pass 4 / §9): a symmetric, bounded
divergence between language models; the spec leaves the exact formula
configurable (suggesting Jensen–Shannon), and total variation is the
documented rational-valued choice here.  Per §7(d), a divergence
against an empty vocabulary is treated as the maximum (1), so it never
merges or matches. -/
def divergence (p q : List (String × ℚ)) : ℚ :=
  let vocab := (p.map Prod.fst ++ q.map Prod.fst).dedup
  if vocab.isEmpty then 1
  else (vocab.map fun t => |probOf p t - probOf q t|).sum / 2

/-- Modelled from the spec (§4.3 pass 4): one entropy merge iteration —
merge the lowest-divergence pair if it is below the threshold, otherwise
stop. -/
def entropyMergeStep (occs : List Occurrence) (threshold : ℚ)
    (cats : List Category) : Option (List Category) :=
  match bestPairByMin
      (fun pr => divergence (categoryModel occs (catAt cats pr.1))
        (categoryModel occs (catAt cats pr.2)))
      (indexPairs cats.length) with
  | none => none
  | some (i, j) =>
    if divergence (categoryModel occs (catAt cats i))
        (categoryModel occs (catAt cats j)) < threshold then
      some (applyMerge cats i j)
    else none

/-- Modelled from the spec (§4.3): the merge driver shared by both
passes — repeat the step until it declines to merge or the merge-count
cap is exhausted; returns the final categories and the number of merge
iterations performed. -/
def mergeLoop (step : List Category → Option (List Category)) :
    Nat → List Category → List Category × Nat
  | 0, cats => (cats, 0)
  | fuel + 1, cats =>
    match step cats with
    | none => (cats, 0)
    | some cats' =>
      let r := mergeLoop step fuel cats'
      (r.1, r.2 + 1)

theorem mergeLoop_iterations_le
    (step : List Category → Option (List Category)) (fuel : Nat) :
    ∀ cats, (mergeLoop step fuel cats).2 ≤ fuel := by
  induction fuel with
  | zero => intro cats; exact le_refl 0
  | succ n ih =>
    intro cats
    unfold mergeLoop
    cases step cats with
    | none => exact Nat.zero_le _
    | some cats' => exact Nat.succ_le_succ (ih cats')

theorem mergeLoop_none (step : List Category → Option (List Category))
    (fuel : Nat) (cats : List Category) (h : step cats = none) :
    mergeLoop step fuel cats = (cats, 0) := by
  cases fuel with
  | zero => rfl
  | succ n => unfold mergeLoop; rw [h]

/-- Modelled from the spec (§4.3): the Category Builder — seed from the
ranked terms, run the term-overlap merge pass, then the entropy merge
pass, both capped at `mergeCountCap` iterations. -/
def buildCategories (cfg : CoreConfig) (occs : List Occurrence) :
    List Category :=
  let stats := scoreTerms cfg.now cfg.recencyHalfLife occs
  let seeds := seedCategories stats cfg.topKSeedTerms
  let afterOverlap :=
    (mergeLoop (overlapMergeStep occs cfg.overlapMergeThreshold)
      cfg.mergeCountCap seeds).1
  (mergeLoop (entropyMergeStep occs cfg.entropyMergeThreshold)
    cfg.mergeCountCap afterOverlap).1

/-- C6: both merge passes of the Category Builder are total functions of
their input (they are defined by structural recursion on the cap) and
perform at most `mergeCountCap` merge iterations each, on every input. -/
theorem merge_passes_terminate_within_cap (cfg : CoreConfig)
    (occs : List Occurrence) (cats : List Category) :
    (mergeLoop (overlapMergeStep occs cfg.overlapMergeThreshold)
        cfg.mergeCountCap cats).2 ≤ cfg.mergeCountCap ∧
    (mergeLoop (entropyMergeStep occs cfg.entropyMergeThreshold)
        cfg.mergeCountCap cats).2 ≤ cfg.mergeCountCap :=
  ⟨mergeLoop_iterations_le _ _ cats, mergeLoop_iterations_le _ _ cats⟩

/-- Modelled from the spec (§4.4): how an assignment was obtained, kept
for auditability. -/
inductive MatchMethod where
  | termIntersection : MatchMethod
  | languageModelFallback : MatchMethod

/-- Modelled from the spec (§3): a CategoryAssignment links an entry to
a (category, subcategory) pair with a match score and the method used. -/
structure CategoryAssignment where
  categoryLabel : String
  subcategoryLabel : Option String
  score : ℚ
  method : MatchMethod

/-- Modelled from the spec (§4.4 phase 1): aggregate popularity of a
category — sum of its member terms' boosted scores. -/
def popularity (stats : List TermStat) (c : Category) : ℚ :=
  ((stats.filter fun s => c.terms.contains s.phrase).map
    TermStat.boostedScore).sum

/-- Descending-popularity visiting order for categories. -/
def popGE (stats : List TermStat) (c d : Category) : Prop :=
  popularity stats d ≤ popularity stats c

instance popGE.decRel (stats : List TermStat) : DecidableRel (popGE stats) :=
  fun c d => by unfold popGE; infer_instance

/-- First candidate attaining the minimal score (deterministic: on ties
the earlier category wins). -/
def bestCategoryBy (score : Category → ℚ) : List Category → Option Category
  | [] => none
  | c :: cs =>
    match bestCategoryBy score cs with
    | none => some c
    | some d => if score d < score c then some d else some c

/-- Modelled from the spec (§4.4): the Entry Classifier for one entry.
Phase 1 visits categories in descending popularity order and records
every category whose term set intersects the entry's phrases (first
matching subcategory attached, term-intersection method, score = number
of intersecting terms).  Phase 2, only when phase 1 found nothing,
builds the single-entry model and assigns the category with the lowest
divergence, subject to the maximum-divergence cutoff; beyond the cutoff
the entry stays unassigned. -/
def classifyEntry (cfg : CoreConfig) (stats : List TermStat)
    (occs : List Occurrence) (cats : List Category) (e : Entry) :
    List CategoryAssignment :=
  let phrases := extractPhrases e.text
  let ordered := List.insertionSort (popGE stats) cats
  let matched := ordered.filterMap fun c =>
    let inter := c.terms.filter fun t => phrases.contains t
    if inter.isEmpty then none
    else
      let sub := c.subcategories.find? fun sc =>
        !(sc.terms.filter fun t => phrases.contains t).isEmpty
      some { categoryLabel := c.label
             subcategoryLabel := sub.map Category.label
             score := (inter.length : ℚ)
             method := MatchMethod.termIntersection : CategoryAssignment }
  if !matched.isEmpty then matched
  else
    let em := entryModel e
    match bestCategoryBy (fun c => divergence em (categoryModel occs c)) cats with
    | none => []
    | some c =>
      if divergence em (categoryModel occs c) ≤ cfg.maxDivergenceCutoff then
        [{ categoryLabel := c.label
           subcategoryLabel := none
           score := divergence em (categoryModel occs c)
           method := MatchMethod.languageModelFallback : CategoryAssignment }]
      else []

/-- Modelled from the spec (§4.4, §6): classify every entry, producing
the map from entry key to its ordered assignment list. -/
def classifyEntries (cfg : CoreConfig) (occs : List Occurrence)
    (cats : List Category) (entries : List Entry) :
    List (Nat × List CategoryAssignment) :=
  let stats := scoreTerms cfg.now cfg.recencyHalfLife occs
  entries.map fun e => (e.key, classifyEntry cfg stats occs cats e)

theorem classifyEntry_no_categories (cfg : CoreConfig)
    (stats : List TermStat) (occs : List Occurrence) (e : Entry) :
    classifyEntry cfg stats occs [] e = [] := rfl

/-- C5: on an input containing zero terms the Category Builder returns
the empty category tree without an error, and the Entry Classifier run
against that empty tree returns zero assignments for every entry. -/
theorem empty_input_empty_tree_zero_assignments (cfg : CoreConfig)
    (entries : List Entry) :
    buildCategories cfg [] = [] ∧
    ∀ pr ∈ classifyEntries cfg [] (buildCategories cfg []) entries,
      pr.2 = [] := by
  have htree : buildCategories cfg [] = [] := by
    have hseeds : seedCategories (scoreTerms cfg.now cfg.recencyHalfLife [])
        cfg.topKSeedTerms = [] := by
      simp [scoreTerms, seedCategories, List.insertionSort]
    have h1 : overlapMergeStep [] cfg.overlapMergeThreshold [] = none := rfl
    have h2 : entropyMergeStep [] cfg.entropyMergeThreshold [] = none := rfl
    calc buildCategories cfg []
        = (mergeLoop (entropyMergeStep [] cfg.entropyMergeThreshold)
            cfg.mergeCountCap
            ((mergeLoop (overlapMergeStep [] cfg.overlapMergeThreshold)
              cfg.mergeCountCap
              (seedCategories (scoreTerms cfg.now cfg.recencyHalfLife [])
                cfg.topKSeedTerms)).1)).1 := rfl
      _ = (mergeLoop (entropyMergeStep [] cfg.entropyMergeThreshold)
            cfg.mergeCountCap ([] : List Category)).1 := by
          rw [hseeds, mergeLoop_none _ _ _ h1]
      _ = [] := by rw [mergeLoop_none _ _ _ h2]
  refine ⟨htree, ?_⟩
  rw [htree]
  intro pr hpr
  unfold classifyEntries at hpr
  simp only [List.mem_map] at hpr
  obtain ⟨e, _, rfl⟩ := hpr
  show classifyEntry cfg (scoreTerms cfg.now cfg.recencyHalfLife []) [] [] e = []
  exact classifyEntry_no_categories cfg _ [] e

mutual

/-- Serialization of the category tree (label; terms; entry keys;
subcategories), modelling the byte-for-byte comparison of §8. -/
def serializeCategory : Category → String
  | .node l ts ks subs =>
    "(" ++ l ++ ";" ++ String.intercalate "," ts ++ ";" ++
      String.intercalate "," (ks.map toString) ++ ";" ++
      serializeCategoryList subs ++ ")"

/-- Serialization of a category list. -/
def serializeCategoryList : List Category → String
  | [] => ""
  | c :: cs => serializeCategory c ++ serializeCategoryList cs

end

/-- Serialization of one assignment. -/
def serializeAssignment (a : CategoryAssignment) : String :=
  a.categoryLabel ++ ":" ++ a.subcategoryLabel.getD "" ++ ":" ++
    toString a.score ++ ":" ++
    (match a.method with
     | MatchMethod.termIntersection => "T"
     | MatchMethod.languageModelFallback => "L")

/-- Serialization of the per-entry assignment map. -/
def serializeAssignments (m : List (Nat × List CategoryAssignment)) : String :=
  String.intercalate ";" (m.map fun pr =>
    toString pr.1 ++ "=" ++
      String.intercalate "|" (pr.2.map serializeAssignment))

/-- Serialization of a whole categorization run. -/
def serializeRun
    (out : List Category × List (Nat × List CategoryAssignment)) : String :=
  serializeCategoryList out.1 ++ "#" ++ serializeAssignments out.2

/-- Modelled from the spec (§4.6): the Orchestrator runs the Parser over
all entries once, building the shared occurrence list. -/
def entryOccurrences (entries : List Entry) : List Occurrence :=
  entries.flatMap fun e =>
    (extractPhrases e.text).map fun p => ⟨p, e.key, e.timestamp⟩

/-- Modelled from the spec (§4.6): the categorization branch of the
Pipeline Orchestrator — Parser once, then Term Scorer → Category
Builder → Entry Classifier; all state (including the recency clock) is
an explicit argument, so a run is a pure function of (entries, config). -/
def runPipeline (cfg : CoreConfig) (entries : List Entry) :
    List Category × List (Nat × List CategoryAssignment) :=
  let occs := entryOccurrences entries
  let cats := buildCategories cfg occs
  (cats, classifyEntries cfg occs cats entries)

/-- C1: two invocations of the Pipeline Orchestrator on the same fixed
entries and configuration produce identical category trees and
identical per-entry assignment lists, byte-for-byte equal after
serialization.  In this model a run is a pure function of (entries,
config) — the recency clock is injected through the configuration (§9)
and no ambient state exists — so determinism holds definitionally. -/
theorem pipeline_deterministic (cfg₁ cfg₂ : CoreConfig)
    (entries₁ entries₂ : List Entry) (hc : cfg₁ = cfg₂)
    (he : entries₁ = entries₂) :
    runPipeline cfg₁ entries₁ = runPipeline cfg₂ entries₂ ∧
    serializeCategoryList (runPipeline cfg₁ entries₁).1 =
      serializeCategoryList (runPipeline cfg₂ entries₂).1 ∧
    serializeAssignments (runPipeline cfg₁ entries₁).2 =
      serializeAssignments (runPipeline cfg₂ entries₂).2 ∧
    serializeRun (runPipeline cfg₁ entries₁) =
      serializeRun (runPipeline cfg₂ entries₂) := by
  subst hc
  subst he
  exact ⟨rfl, rfl, rfl, rfl⟩

/-- A configuration used by concrete runs. -/
def sampleConfig : CoreConfig :=
  { topKSeedTerms := 5
    overlapMergeThreshold := 1 / 2
    entropyMergeThreshold := 1 / 4
    mergeCountCap := 10
    recencyHalfLife := 7
    maxDivergenceCutoff := 3 / 4
    ratingScaleMin := 1
    ratingScaleMax := 5
    problemThreshold := 0
    relevancePatterns := ["broken"]
    now := 100 }

/-- Concrete run of C1: two invocations on one entry agree. -/
theorem pipeline_deterministic_witness :
    runPipeline sampleConfig [⟨1, "the website is broken", some 1, none⟩] =
      runPipeline sampleConfig [⟨1, "the website is broken", some 1, none⟩] ∧
    serializeCategoryList
        (runPipeline sampleConfig
          [⟨1, "the website is broken", some 1, none⟩]).1 =
      serializeCategoryList
        (runPipeline sampleConfig
          [⟨1, "the website is broken", some 1, none⟩]).1 ∧
    serializeAssignments
        (runPipeline sampleConfig
          [⟨1, "the website is broken", some 1, none⟩]).2 =
      serializeAssignments
        (runPipeline sampleConfig
          [⟨1, "the website is broken", some 1, none⟩]).2 ∧
    serializeRun
        (runPipeline sampleConfig
          [⟨1, "the website is broken", some 1, none⟩]) =
      serializeRun
        (runPipeline sampleConfig
          [⟨1, "the website is broken", some 1, none⟩]) :=
  pipeline_deterministic sampleConfig sampleConfig
    [⟨1, "the website is broken", some 1, none⟩]
    [⟨1, "the website is broken", some 1, none⟩] rfl rfl

/-- Modelled from the spec (§4.5): linear rating normalization from the
declared scale onto −2..+2 — the midpoint maps to 0 and higher ratings
map positive. -/
def normalizeRating (lo hi rating : ℚ) : ℚ :=
  4 * (rating - lo) / (hi - lo) - 2

/-- Clipping to a closed interval. -/
def clip (lo hi x : ℚ) : ℚ := max lo (min hi x)

/-- Modelled from the spec (§4.5): lexical sentiment — polarity lexicon
lookup over extracted phrases, averaged, clipped to −2..+2; no hits
gives the neutral 0. -/
def lexicalSentiment (lexicon : List (String × ℚ)) (phrases : List String) :
    ℚ :=
  let scores := phrases.filterMap fun p =>
    (lexicon.find? fun q => q.1 == p).map Prod.snd
  if scores.isEmpty then 0
  else clip (-2) 2 (scores.sum / scores.length)

/-- Modelled from the spec (§4.5): the negative-context score — the
equal-weight default blend of the normalized rating (baseline 0 when the
rating is absent) and the lexical sentiment. -/
def negativeContextScore (cfg : CoreConfig) (lexicon : List (String × ℚ))
    (e : Entry) : ℚ :=
  let ratingPart :=
    match e.rating with
    | some r => normalizeRating cfg.ratingScaleMin cfg.ratingScaleMax r
    | none => 0
  let textPart := lexicalSentiment lexicon (extractPhrases e.text)
  (ratingPart + textPart) / 2

/-- Substring prefix test on character lists. -/
def isPrefixChars : List Char → List Char → Bool
  | [], _ => true
  | _ :: _, [] => false
  | a :: as, b :: bs => a = b && isPrefixChars as bs

/-- Substring containment on character lists. -/
def containsSub (hay needle : List Char) : Bool :=
  match hay with
  | [] => needle.isEmpty
  | _ :: cs => isPrefixChars needle hay || containsSub cs needle

/-- Modelled from the spec (§4.5): relevance — any configured pattern
found as a substring of the normalized text. -/
def relevanceMatch (patterns : List String) (e : Entry) : Bool :=
  patterns.any fun p => containsSub (normalizeText e.text).data p.data

/-- Modelled from the spec (§3): the per-entry problem signal. -/
structure ProblemSignal where
  negativeContextScore : ℚ
  relevanceMatch : Bool
  isProblem : Bool

/-- Modelled from the spec (§4.5): the combined signal —
`isProblem = (negative-context score below the threshold) AND
(relevance match)`, both components reported separately. -/
def analyzeProblem (cfg : CoreConfig) (lexicon : List (String × ℚ))
    (e : Entry) : ProblemSignal :=
  let n := negativeContextScore cfg lexicon e
  let r := relevanceMatch cfg.relevancePatterns e
  { negativeContextScore := n
    relevanceMatch := r
    isProblem := decide (n < cfg.problemThreshold) && r }

/-- C3: for the declared 1..5 scale, the Analyzer's linear rating
normalization maps the midpoint 3 to 0, the maximum 5 to +2 and the
minimum 1 to −2, and every rating above the midpoint maps to a positive
value. -/
theorem rating_normalization_spec (r : ℚ) (h : 3 < r) :
    normalizeRating 1 5 3 = 0 ∧ normalizeRating 1 5 5 = 2 ∧
    normalizeRating 1 5 1 = -2 ∧ 0 < normalizeRating 1 5 r := by
  refine ⟨by norm_num [normalizeRating], by norm_num [normalizeRating],
    by norm_num [normalizeRating], ?_⟩
  have hval : normalizeRating 1 5 r = r - 3 := by
    unfold normalizeRating
    ring
  rw [hval]
  linarith

/-- Concrete run of C3 at rating 4. -/
theorem rating_normalization_witness :
    normalizeRating 1 5 3 = 0 ∧ normalizeRating 1 5 5 = 2 ∧
    normalizeRating 1 5 1 = -2 ∧ 0 < normalizeRating 1 5 4 :=
  rating_normalization_spec 4 (by norm_num)

/-- Concrete run of C5: with zero input terms the builder yields the
empty tree and the single entry receives zero assignments. -/
theorem empty_input_witness :
    ((1 : Nat), ([] : List CategoryAssignment)).2 = [] :=
  (empty_input_empty_tree_zero_assignments sampleConfig
      [⟨1, "site broken", none, none⟩]).2
    (1, [])
    (by
      show (1, ([] : List CategoryAssignment)) ∈
        classifyEntries sampleConfig [] (buildCategories sampleConfig [])
          [⟨1, "site broken", none, none⟩]
      exact List.Mem.head _)
